import Mathlib

/-!
Shallow embedding of `src/RGB_LED_Mood_Lamp_NoBlock/RGB_LED_Mood_Lamp_NoBlock.ino`
(the non-blocking mood-lamp sketch). The sketch drives three PWM channels by
walking the vertices of the RGB colour cube. The embedding covers:

* the constants and the `coord` record;
* the `vertex` table and the materialization idiom `(vertex[k].x ? MAX : MIN)`
  used in `setup()` and in the fixed-path re-anchor;
* the non-blocking state machine `traverse` (lines 157-237), with `millis()`
  passed in explicitly as the invocation time and the `analogWrite` triple
  recorded as an emitted `Coord`;
* the delta computation of the `traverse` call in `loop()` (line 285);
* the fixed-path vertex-selection step of `loop()` (lines 254-273);
* the digit-sum generator `MD_Random` (lines 88-99).

Machine integers are modelled as `Nat`/`Int` with explicit reductions:
`uint8_t` wraparound is `% 256` (`u8`), `uint16_t` is `% 65536`, and
`uint32_t` time arithmetic is `% 4294967296` (`u32`, `u32sub`).
-/

set_option maxRecDepth 16384

namespace MoodLamp

/-- MIN_RGB_VALUE of the sketch (line 40). -/
def MIN_RGB_VALUE : Nat := 10

/-- MAX_RGB_VALUE of the sketch (line 41). -/
def MAX_RGB_VALUE : Nat := 255

/-- TRANSITION_DELAY, milliseconds between individual light changes (line 44). -/
def TRANSITION_DELAY : Nat := 100

/-- WAIT_DELAY, milliseconds of rest at the end of each traverse (line 45). -/
def WAIT_DELAY : Nat := 500

/-- Loop bound `MAX_RGB_VALUE - MIN_RGB_VALUE` of the S_LOOP comparison
(line 194); equal to 245 with the sketch's constants. -/
def STEPS : Nat := MAX_RGB_VALUE - MIN_RGB_VALUE

/-- The `coord` struct (lines 51-55): three `uint8_t` components. Components
are carried as `Int` (so that adding the signed per-step delta `dx` is
direct); every store coming from C `uint8_t` arithmetic goes through `u8`. -/
structure Coord where
  x : Int
  y : Int
  z : Int
deriving DecidableEq

/-- Conversion of an `int` value to `uint8_t` on assignment (the compound
assignment `v.x += dx` of lines 210-212): reduction modulo 256. -/
def u8 (a : Int) : Int := a % 256

/-- Reduction of a `Nat` time value to `uint32_t` range (`millis()` values). -/
def u32 (n : Nat) : Nat := n % 4294967296

/-- The `uint32_t` subtraction `millis() - timeStart` of line 226. -/
def u32sub (a b : Nat) : Nat := (u32 a + 4294967296 - u32 b) % 4294967296

/-- The `vertex[]` table (lines 71-82): the 8 cube vertices with 0/1 axes. -/
def vertex : List Coord :=
  [⟨0, 0, 0⟩, ⟨0, 0, 1⟩, ⟨0, 1, 1⟩, ⟨0, 1, 0⟩,
   ⟨1, 1, 0⟩, ⟨1, 0, 0⟩, ⟨1, 0, 1⟩, ⟨1, 1, 1⟩]

/-- MAX_VERTICES (line 84). -/
def MAX_VERTICES : Nat := vertex.length

/-- Read `vertex[k]`; the sketch indexes it with values in `[0,7]`. -/
def vtx (k : Nat) : Coord := vertex.getD k ⟨0, 0, 0⟩

/-- One axis of the materialization idiom `(b ? MAX_RGB_VALUE : MIN_RGB_VALUE)`
used in `setup()` (lines 152-154) and in the path-mode re-anchor
(lines 263-265). -/
def matAxis (b : Int) : Int :=
  if b ≠ 0 then (MAX_RGB_VALUE : Int) else (MIN_RGB_VALUE : Int)

/-- Materialized (displayed) form of a boolean cube vertex. -/
def materialize (c : Coord) : Coord := ⟨matAxis c.x, matAxis c.y, matAxis c.z⟩

/-- The states of the `traverse` state machine (line 164). -/
inductive TState where
  | S_INIT
  | S_LOOP
  | S_WAITTRANS
  | S_WAITDELAY
deriving DecidableEq

/-- The static variables of `traverse` (lines 164-167): the phase, the two
timer registers, the `uint16_t` step counter `idx` and the captured
`int16_t` deltas. -/
structure Engine where
  state : TState
  timeStart : Nat
  timeDelay : Nat
  idx : Nat
  dx : Int
  dy : Int
  dz : Int
deriving DecidableEq

/-- Result of one invocation of `traverse`: the updated statics, the updated
displayed coordinate `v`, the `analogWrite` triples pushed during the
invocation (at most one), and the returned `bool`. -/
structure TResult where
  eng : Engine
  v : Coord
  writes : List Coord
  done : Bool
deriving DecidableEq

/-- The non-blocking `traverse` (lines 157-237). `now` is the value the
`millis()` calls of this invocation return; `v` is the global displayed
coordinate; `dx0 dy0 dz0` are the arguments `_dx _dy _dz`. The `default`
arm of the C `switch` is dead: the enum has exactly the four states. -/
def traverse (now : Nat) (e : Engine) (v : Coord) (dx0 dy0 dz0 : Int) : TResult :=
  if e.state = TState.S_INIT ∧ dx0 = 0 ∧ dy0 = 0 ∧ dz0 = 0 then
    ⟨e, v, [], true⟩
  else
    match e.state with
    | TState.S_INIT =>
        ⟨{ e with idx := 0, dx := dx0, dy := dy0, dz := dz0, state := TState.S_LOOP },
         v, [], false⟩
    | TState.S_LOOP =>
        if e.idx ≥ STEPS then
          ⟨{ e with timeStart := u32 now, timeDelay := WAIT_DELAY,
                    state := TState.S_WAITDELAY }, v, [], false⟩
        else
          ⟨{ e with idx := (e.idx + 1) % 65536, timeStart := u32 now,
                    timeDelay := TRANSITION_DELAY, state := TState.S_WAITTRANS },
           ⟨u8 (v.x + e.dx), u8 (v.y + e.dy), u8 (v.z + e.dz)⟩, [v], false⟩
    | TState.S_WAITTRANS =>
        if u32sub now e.timeStart ≥ e.timeDelay then
          ⟨{ e with state := TState.S_LOOP }, v, [], false⟩
        else
          ⟨e, v, [], false⟩
    | TState.S_WAITDELAY =>
        if u32sub now e.timeStart ≥ e.timeDelay then
          ⟨{ e with state := TState.S_INIT }, v, [], true⟩
        else
          ⟨e, v, [], false⟩

/-- The x delta of the `traverse` call in `loop()` (line 285):
`vertex[v2].x - vertex[v1].x`, computed on the raw 0/1 table entries. -/
def vdx (v1 v2 : Nat) : Int := (vtx v2).x - (vtx v1).x

/-- The y delta of the `traverse` call in `loop()` (line 285). -/
def vdy (v1 v2 : Nat) : Int := (vtx v2).y - (vtx v1).y

/-- The z delta of the `traverse` call in `loop()` (line 285). -/
def vdz (v1 v2 : Nat) : Int := (vtx v2).z - (vtx v1).z

/-- Outcome of driving `traverse` repeatedly, as `loop()`'s S_ANIMATE state
does, stopping at the first invocation that returns `true`: final statics,
final coordinate, all pushed writes in order, the coordinate after each
invocation up to and including the completing one, and whether completion
was reached within the given invocation times. -/
structure RunResult where
  eng : Engine
  v : Coord
  writes : List Coord
  vTrace : List Coord
  fin : Bool
deriving DecidableEq

/-- Drive one traversal session: invoke `traverse` once per entry of `ts`
(the `millis()` value of that invocation), with the fixed call arguments
`dx0 dy0 dz0`, stopping as soon as an invocation reports completion. -/
def runSession : List Nat → Engine → Coord → Int → Int → Int → RunResult
  | [], e, v, _, _, _ => ⟨e, v, [], [], false⟩
  | t :: ts, e, v, dx0, dy0, dz0 =>
    let r := traverse t e v dx0 dy0 dz0
    if r.done then
      ⟨r.eng, r.v, r.writes, [r.v], true⟩
    else
      let rest := runSession ts r.eng r.v dx0 dy0 dz0
      ⟨rest.eng, rest.v, r.writes ++ rest.writes, r.v :: rest.vTrace, rest.fin⟩

/-- Invoke `traverse` once per entry of `ts` without stopping at completion,
returning the final statics and coordinate. -/
def runRaw : List Nat → Engine → Coord → Int → Int → Int → Engine × Coord
  | [], e, v, _, _, _ => (e, v)
  | t :: ts, e, v, dx0, dy0, dz0 =>
    runRaw ts (traverse t e v dx0 dy0 dz0).eng (traverse t e v dx0 dy0 dz0).v dx0 dy0 dz0

/-- The `path[]` table of fixed-path mode (lines 109-113): 15 bytes, two
vertex indices per byte. -/
def path : List Nat :=
  [0x01, 0x23, 0x45, 0x67, 0x21, 0x65, 0x00,
   0x26, 0x41, 0x35, 0x71, 0x25, 0x36, 0x14, 0x70]

/-- MAX_PATH_SIZE (line 115). -/
def MAX_PATH_SIZE : Nat := path.length

/-- State of the fixed-path vertex selection in `loop()`: the static nibble
cursor `i`, the static previous target `v2`, and the global coordinate `v`
(touched only by the wrap re-anchor, lines 263-265). -/
structure SelState where
  i : Nat
  v2 : Nat
  v : Coord
deriving DecidableEq

/-- One execution of the fixed-path selection block of `loop()`
(lines 256-272): `if (i++ >= 2*MAX_PATH_SIZE) { i = 0; re-anchor v; }` then
the nibble read `path[i>>1]`, low nibble (`& 0xf`, here `% 16`) when `i` is
odd and high nibble (`>> 4`, here `/ 16`) when `i` is even. The C array read
has no bounds check; the model totalizes it with `List.getD _ 0`, and
`selPathIndex` below exposes the index the C code dereferences. -/
def selectStep (s : SelState) : SelState :=
  let wrap := s.i ≥ 2 * MAX_PATH_SIZE
  let i := if wrap then 0 else s.i + 1
  let v := if wrap then materialize (vtx s.v2) else s.v
  let b := path.getD (i / 2) 0
  let v2 := if i % 2 = 1 then b % 16 else b / 16
  ⟨i, v2, v⟩

/-- The index into `path[]` that the selection block dereferences when run
from state `s` (the value of `i >> 1` at lines 270/272). -/
def selPathIndex (s : SelState) : Nat :=
  (if s.i ≥ 2 * MAX_PATH_SIZE then 0 else s.i + 1) / 2

/-- The selector state right after `setup()` in fixed-path mode: `i = 0`,
`v2 = 0`, and `v` initialised to the materialized first vertex
(lines 152-154). -/
def sel0 : SelState := ⟨0, 0, materialize (vtx 0)⟩

/-- The digit-sum loop of `MD_Random` (lines 93-97), fuel-indexed so that it
is structurally recursive (hence kernel-reducible): while `n > 0`, add
`n % 10` into the `uint16_t` accumulator `r` and divide `n` by 10. The fuel
is always instantiated with `n` itself, which bounds the number of
iterations. -/
def mdAccumF : Nat → Nat → Nat → Nat
  | 0, _, r => r
  | _ + 1, 0, r => r
  | fuel + 1, n + 1, r => mdAccumF fuel ((n + 1) / 10) ((r + (n + 1) % 10) % 65536)

/-- `MD_Random` (lines 88-99): sum the decimal digits of the current
`millis()` value (a `uint32_t`) into a `uint16_t` and reduce modulo `nMax`. -/
def MD_Random (now : Nat) (nMax : Nat) : Nat :=
  mdAccumF (u32 now) (u32 now) 0 % nMax

/-- The engine statics as they are zero-initialised at program start. -/
def eng0 : Engine := ⟨TState.S_INIT, 0, 0, 0, 0, 0, 0⟩

/-- A concrete schedule of invocation times, one second apart: ample for a
full session (which needs 493 invocations when every wait ends by the next
invocation). -/
def tsRun : List Nat := (List.range 500).map (fun k => k * 1000)

theorem STEPS_eq : STEPS = 245 := rfl

theorem traverse_idle (now : Nat) (e : Engine) (v : Coord)
    (he : e.state = TState.S_INIT) :
    traverse now e v 0 0 0 = ⟨e, v, [], true⟩ := by
  simp [traverse, he]

theorem traverse_start (now : Nat) (e : Engine) (v : Coord) (dx0 dy0 dz0 : Int)
    (he : e.state = TState.S_INIT) (hd : ¬(dx0 = 0 ∧ dy0 = 0 ∧ dz0 = 0)) :
    traverse now e v dx0 dy0 dz0 =
      ⟨{ e with idx := 0, dx := dx0, dy := dy0, dz := dz0, state := TState.S_LOOP },
       v, [], false⟩ := by
  simp only [traverse, he]
  simp [hd]

theorem traverse_loop_finish (now : Nat) (e : Engine) (v : Coord) (dx0 dy0 dz0 : Int)
    (he : e.state = TState.S_LOOP) (hge : e.idx ≥ STEPS) :
    traverse now e v dx0 dy0 dz0 =
      ⟨{ e with timeStart := u32 now, timeDelay := WAIT_DELAY,
                state := TState.S_WAITDELAY }, v, [], false⟩ := by
  simp [traverse, he, hge]

theorem traverse_loop_write (now : Nat) (e : Engine) (v : Coord) (dx0 dy0 dz0 : Int)
    (he : e.state = TState.S_LOOP) (hlt : e.idx < STEPS) :
    traverse now e v dx0 dy0 dz0 =
      ⟨{ e with idx := (e.idx + 1) % 65536, timeStart := u32 now,
                timeDelay := TRANSITION_DELAY, state := TState.S_WAITTRANS },
       ⟨u8 (v.x + e.dx), u8 (v.y + e.dy), u8 (v.z + e.dz)⟩, [v], false⟩ := by
  simp [traverse, he, Nat.not_le.mpr hlt]

theorem traverse_waittrans (now : Nat) (e : Engine) (v : Coord) (dx0 dy0 dz0 : Int)
    (he : e.state = TState.S_WAITTRANS) :
    traverse now e v dx0 dy0 dz0 =
      if u32sub now e.timeStart ≥ e.timeDelay then
        ⟨{ e with state := TState.S_LOOP }, v, [], false⟩
      else ⟨e, v, [], false⟩ := by
  simp [traverse, he]

theorem traverse_waitdelay (now : Nat) (e : Engine) (v : Coord) (dx0 dy0 dz0 : Int)
    (he : e.state = TState.S_WAITDELAY) :
    traverse now e v dx0 dy0 dz0 =
      if u32sub now e.timeStart ≥ e.timeDelay then
        ⟨{ e with state := TState.S_INIT }, v, [], true⟩
      else ⟨e, v, [], false⟩ := by
  simp [traverse, he]

theorem runSession_nil (e : Engine) (v : Coord) (dx0 dy0 dz0 : Int) :
    runSession [] e v dx0 dy0 dz0 = ⟨e, v, [], [], false⟩ := rfl

theorem runSession_cons (t : Nat) (ts : List Nat) (e : Engine) (v : Coord)
    (dx0 dy0 dz0 : Int) :
    runSession (t :: ts) e v dx0 dy0 dz0 =
      if (traverse t e v dx0 dy0 dz0).done then
        ⟨(traverse t e v dx0 dy0 dz0).eng, (traverse t e v dx0 dy0 dz0).v,
         (traverse t e v dx0 dy0 dz0).writes, [(traverse t e v dx0 dy0 dz0).v], true⟩
      else
        ⟨(runSession ts (traverse t e v dx0 dy0 dz0).eng (traverse t e v dx0 dy0 dz0).v
            dx0 dy0 dz0).eng,
         (runSession ts (traverse t e v dx0 dy0 dz0).eng (traverse t e v dx0 dy0 dz0).v
            dx0 dy0 dz0).v,
         (traverse t e v dx0 dy0 dz0).writes ++
           (runSession ts (traverse t e v dx0 dy0 dz0).eng (traverse t e v dx0 dy0 dz0).v
              dx0 dy0 dz0).writes,
         (traverse t e v dx0 dy0 dz0).v ::
           (runSession ts (traverse t e v dx0 dy0 dz0).eng (traverse t e v dx0 dy0 dz0).v
              dx0 dy0 dz0).vTrace,
         (runSession ts (traverse t e v dx0 dy0 dz0).eng (traverse t e v dx0 dy0 dz0).v
            dx0 dy0 dz0).fin⟩ := rfl

/-- Mid-session invariant tying the engine phase, the step counter and the
number of writes pushed so far. -/
def CountInv (e : Engine) (w : Nat) : Prop :=
  ((e.state = TState.S_LOOP ∨ e.state = TState.S_WAITTRANS) ∧ w = e.idx ∧ e.idx ≤ STEPS) ∨
  (e.state = TState.S_WAITDELAY ∧ w = STEPS ∧ e.idx = STEPS)

theorem count_step (t : Nat) (e : Engine) (v : Coord) (dx0 dy0 dz0 : Int) (w : Nat)
    (h : CountInv e w) :
    ((traverse t e v dx0 dy0 dz0).done = true →
      w + (traverse t e v dx0 dy0 dz0).writes.length = STEPS) ∧
    ((traverse t e v dx0 dy0 dz0).done = false →
      CountInv (traverse t e v dx0 dy0 dz0).eng
        (w + (traverse t e v dx0 dy0 dz0).writes.length)) := by
  rcases h with ⟨hs | hs, hw, hle⟩ | ⟨hs, hw, hidx⟩
  · by_cases hge : e.idx ≥ STEPS
    · rw [traverse_loop_finish t e v dx0 dy0 dz0 hs hge]
      refine ⟨by simp, fun _ => ?_⟩
      right
      simp
      omega
    · rw [traverse_loop_write t e v dx0 dy0 dz0 hs (Nat.lt_of_not_le hge)]
      refine ⟨by simp, fun _ => ?_⟩
      left
      have hlt : e.idx < STEPS := Nat.lt_of_not_le hge
      have hm : (e.idx + 1) % 65536 = e.idx + 1 := by
        apply Nat.mod_eq_of_lt
        have := STEPS_eq
        omega
      simp [hm]
      omega
  · rw [traverse_waittrans t e v dx0 dy0 dz0 hs]
    by_cases hT : u32sub t e.timeStart ≥ e.timeDelay
    · rw [if_pos hT]
      refine ⟨by simp, fun _ => ?_⟩
      exact Or.inl ⟨Or.inl (by simp), by simpa using hw, by simpa using hle⟩
    · rw [if_neg hT]
      refine ⟨by simp, fun _ => ?_⟩
      exact Or.inl ⟨Or.inr hs, by simpa using hw, hle⟩
  · rw [traverse_waitdelay t e v dx0 dy0 dz0 hs]
    by_cases hT : u32sub t e.timeStart ≥ e.timeDelay
    · rw [if_pos hT]
      refine ⟨fun _ => by simpa using hw, by simp⟩
    · rw [if_neg hT]
      refine ⟨by simp, fun _ => ?_⟩
      exact Or.inr ⟨hs, by simpa using hw, hidx⟩

theorem count_run (dx0 dy0 dz0 : Int) (ts : List Nat) :
    ∀ (e : Engine) (v : Coord) (w : Nat), CountInv e w →
      (runSession ts e v dx0 dy0 dz0).fin = true →
      w + (runSession ts e v dx0 dy0 dz0).writes.length = STEPS := by
  induction ts with
  | nil =>
    intro e v w _ hfin
    simp [runSession_nil] at hfin
  | cons t ts ih =>
    intro e v w h hfin
    have hstep := count_step t e v dx0 dy0 dz0 w h
    by_cases hdone : (traverse t e v dx0 dy0 dz0).done = true
    · rw [runSession_cons, if_pos hdone] at hfin ⊢
      exact hstep.1 hdone
    · have hdf : (traverse t e v dx0 dy0 dz0).done = false := by
        simpa using hdone
      rw [runSession_cons, if_neg hdone] at hfin ⊢
      have := ih _ _ _ (hstep.2 hdf) hfin
      simp only [List.length_append] at *
      omega

/-- C3: a traversal session started with not-all-zero deltas pushes exactly
MAX_RGB_VALUE − MIN_RGB_VALUE (= 245) coordinate triples to the PWM outputs
between its start and its completion report. -/
theorem C3_session_write_count (ts : List Nat) (e : Engine) (v : Coord)
    (dx0 dy0 dz0 : Int) (he : e.state = TState.S_INIT)
    (hd : ¬(dx0 = 0 ∧ dy0 = 0 ∧ dz0 = 0))
    (hfin : (runSession ts e v dx0 dy0 dz0).fin = true) :
    (runSession ts e v dx0 dy0 dz0).writes.length = STEPS := by
  cases ts with
  | nil => simp [runSession_nil] at hfin
  | cons t ts =>
    rw [runSession_cons, traverse_start t e v dx0 dy0 dz0 he hd] at hfin ⊢
    simp only [if_neg (by simp : ¬((false : Bool) = true))] at hfin ⊢
    have hinv : CountInv
        { e with idx := 0, dx := dx0, dy := dy0, dz := dz0, state := TState.S_LOOP } 0 := by
      left
      simp
    have := count_run dx0 dy0 dz0 ts _ _ 0 hinv (by simpa using hfin)
    simpa using this

/-- C3 witness: the concrete session of the sketch from vertex 0 to vertex 7,
driven at one invocation per second, completes and pushes exactly 245 writes. -/
theorem C3_session_write_count_witness :
    (runSession tsRun eng0 (materialize (vtx 0)) (vdx 0 7) (vdy 0 7) (vdz 0 7)).writes.length
      = STEPS :=
  C3_session_write_count tsRun eng0 (materialize (vtx 0)) (vdx 0 7) (vdy 0 7) (vdz 0 7)
    rfl (by decide) (by decide)

/-- Per-axis precondition of a vertex-to-vertex session: a materialized
starting axis together with a raw per-step delta that keeps the axis inside
[MIN_RGB_VALUE, MAX_RGB_VALUE] for all STEPS steps. -/
def AxisOK (a d : Int) : Prop :=
  (a = (MIN_RGB_VALUE : Int) ∧ (d = 0 ∨ d = 1)) ∨
  (a = (MAX_RGB_VALUE : Int) ∧ (d = 0 ∨ d = -1))

instance (a d : Int) : Decidable (AxisOK a d) :=
  inferInstanceAs (Decidable (_ ∨ _))

theorem axis_step (a d : Int) (hok : AxisOK a d) (k : Nat) (hk : k + 1 ≤ STEPS) :
    u8 (a + (k : Int) * d + d) = a + ((k : Int) + 1) * d := by
  have hk' : (k : Int) + 1 ≤ 245 := by
    have := STEPS_eq
    omega
  have hk0 : (0 : Int) ≤ (k : Int) := Int.natCast_nonneg k
  rcases hok with ⟨ha, hd | hd⟩ | ⟨ha, hd | hd⟩ <;> subst ha <;> subst hd <;>
    simp only [u8, MIN_RGB_VALUE, MAX_RGB_VALUE, Nat.cast_ofNat] <;> omega

/-- Mid-session invariant tying the engine statics and the displayed
coordinate to the session start `v0` and the captured deltas. -/
def ValInv (v0 : Coord) (dx0 dy0 dz0 : Int) (e : Engine) (v : Coord) : Prop :=
  e.dx = dx0 ∧ e.dy = dy0 ∧ e.dz = dz0 ∧
  v.x = v0.x + (e.idx : Int) * dx0 ∧ v.y = v0.y + (e.idx : Int) * dy0 ∧
  v.z = v0.z + (e.idx : Int) * dz0 ∧
  (((e.state = TState.S_LOOP ∨ e.state = TState.S_WAITTRANS) ∧ e.idx ≤ STEPS) ∨
   (e.state = TState.S_WAITDELAY ∧ e.idx = STEPS))

/-- The coordinate a session started at `v0` with the given deltas holds
when the loop counter has run the full STEPS steps. -/
def sessionEnd (v0 : Coord) (dx0 dy0 dz0 : Int) : Coord :=
  ⟨v0.x + (STEPS : Int) * dx0, v0.y + (STEPS : Int) * dy0, v0.z + (STEPS : Int) * dz0⟩

theorem val_step (t : Nat) (e : Engine) (v : Coord) (v0 : Coord) (dx0 dy0 dz0 : Int)
    (hx : AxisOK v0.x dx0) (hy : AxisOK v0.y dy0) (hz : AxisOK v0.z dz0)
    (h : ValInv v0 dx0 dy0 dz0 e v) :
    ((traverse t e v dx0 dy0 dz0).done = true →
      (traverse t e v dx0 dy0 dz0).v = sessionEnd v0 dx0 dy0 dz0) ∧
    ((traverse t e v dx0 dy0 dz0).done = false →
      ValInv v0 dx0 dy0 dz0 (traverse t e v dx0 dy0 dz0).eng
        (traverse t e v dx0 dy0 dz0).v) := by
  obtain ⟨hdx, hdy, hdz, hvx, hvy, hvz, hst⟩ := h
  rcases hst with ⟨hs | hs, hle⟩ | ⟨hs, hidx⟩
  · by_cases hge : e.idx ≥ STEPS
    · rw [traverse_loop_finish t e v dx0 dy0 dz0 hs hge]
      refine ⟨by simp, fun _ => ?_⟩
      exact ⟨by simpa using hdx, by simpa using hdy, by simpa using hdz,
        by simpa using hvx, by simpa using hvy, by simpa using hvz,
        Or.inr ⟨by simp, by simpa using le_antisymm hle hge⟩⟩
    · have hlt := Nat.lt_of_not_le hge
      rw [traverse_loop_write t e v dx0 dy0 dz0 hs hlt]
      have hm : (e.idx + 1) % 65536 = e.idx + 1 := by
        apply Nat.mod_eq_of_lt
        have := STEPS_eq
        omega
      have hsx : u8 (v.x + e.dx) = v0.x + ((e.idx : Int) + 1) * dx0 := by
        rw [hdx, hvx]
        exact axis_step v0.x dx0 hx e.idx hlt
      have hsy : u8 (v.y + e.dy) = v0.y + ((e.idx : Int) + 1) * dy0 := by
        rw [hdy, hvy]
        exact axis_step v0.y dy0 hy e.idx hlt
      have hsz : u8 (v.z + e.dz) = v0.z + ((e.idx : Int) + 1) * dz0 := by
        rw [hdz, hvz]
        exact axis_step v0.z dz0 hz e.idx hlt
      refine ⟨by simp, fun _ => ?_⟩
      refine ⟨by simpa using hdx, by simpa using hdy, by simpa using hdz, ?_, ?_, ?_,
        Or.inl ⟨Or.inr (by simp), by simpa [hm] using hlt⟩⟩
      · show u8 (v.x + e.dx) = v0.x + (((e.idx + 1) % 65536 : Nat) : Int) * dx0
        rw [hm]
        push_cast
        exact hsx
      · show u8 (v.y + e.dy) = v0.y + (((e.idx + 1) % 65536 : Nat) : Int) * dy0
        rw [hm]
        push_cast
        exact hsy
      · show u8 (v.z + e.dz) = v0.z + (((e.idx + 1) % 65536 : Nat) : Int) * dz0
        rw [hm]
        push_cast
        exact hsz
  · rw [traverse_waittrans t e v dx0 dy0 dz0 hs]
    by_cases hT : u32sub t e.timeStart ≥ e.timeDelay
    · rw [if_pos hT]
      refine ⟨by simp, fun _ => ?_⟩
      exact ⟨by simpa using hdx, by simpa using hdy, by simpa using hdz,
        by simpa using hvx, by simpa using hvy, by simpa using hvz,
        Or.inl ⟨Or.inl (by simp), by simpa using hle⟩⟩
    · rw [if_neg hT]
      refine ⟨by simp, fun _ => ?_⟩
      exact ⟨hdx, hdy, hdz, hvx, hvy, hvz, Or.inl ⟨Or.inr hs, hle⟩⟩
  · rw [traverse_waitdelay t e v dx0 dy0 dz0 hs]
    by_cases hT : u32sub t e.timeStart ≥ e.timeDelay
    · rw [if_pos hT]
      refine ⟨fun _ => ?_, by simp⟩
      show v = sessionEnd v0 dx0 dy0 dz0
      have hx' : v.x = v0.x + (STEPS : Int) * dx0 := by rw [hvx, hidx]
      have hy' : v.y = v0.y + (STEPS : Int) * dy0 := by rw [hvy, hidx]
      have hz' : v.z = v0.z + (STEPS : Int) * dz0 := by rw [hvz, hidx]
      cases v
      simp only [sessionEnd]
      simp_all
    · rw [if_neg hT]
      refine ⟨by simp, fun _ => ?_⟩
      exact ⟨hdx, hdy, hdz, hvx, hvy, hvz, Or.inr ⟨hs, hidx⟩⟩

/-- A coordinate of the form `v0 + k·(dx0,dy0,dz0)` with `k ≤ STEPS`. -/
def Interp (v0 : Coord) (dx0 dy0 dz0 : Int) (w : Coord) : Prop :=
  ∃ k : Nat, k ≤ STEPS ∧ w.x = v0.x + (k : Int) * dx0 ∧
    w.y = v0.y + (k : Int) * dy0 ∧ w.z = v0.z + (k : Int) * dz0

theorem valInv_interp (v0 : Coord) (dx0 dy0 dz0 : Int) (e : Engine) (v : Coord)
    (h : ValInv v0 dx0 dy0 dz0 e v) : Interp v0 dx0 dy0 dz0 v := by
  obtain ⟨_, _, _, hvx, hvy, hvz, hst⟩ := h
  refine ⟨e.idx, ?_, hvx, hvy, hvz⟩
  rcases hst with ⟨_, hle⟩ | ⟨_, hidx⟩
  · exact hle
  · exact le_of_eq hidx

theorem sessionEnd_interp (v0 : Coord) (dx0 dy0 dz0 : Int) :
    Interp v0 dx0 dy0 dz0 (sessionEnd v0 dx0 dy0 dz0) :=
  ⟨STEPS, le_rfl, rfl, rfl, rfl⟩

theorem val_run (v0 : Coord) (dx0 dy0 dz0 : Int)
    (hx : AxisOK v0.x dx0) (hy : AxisOK v0.y dy0) (hz : AxisOK v0.z dz0)
    (ts : List Nat) :
    ∀ (e : Engine) (v : Coord), ValInv v0 dx0 dy0 dz0 e v →
      ((runSession ts e v dx0 dy0 dz0).fin = true →
        (runSession ts e v dx0 dy0 dz0).v = sessionEnd v0 dx0 dy0 dz0) ∧
      (∀ w ∈ (runSession ts e v dx0 dy0 dz0).vTrace, Interp v0 dx0 dy0 dz0 w) := by
  induction ts with
  | nil =>
    intro e v _
    constructor
    · intro hfin
      simp [runSession_nil] at hfin
    · intro w hw
      simp [runSession_nil] at hw
  | cons t ts ih =>
    intro e v h
    have hstep := val_step t e v v0 dx0 dy0 dz0 hx hy hz h
    by_cases hdone : (traverse t e v dx0 dy0 dz0).done = true
    · rw [runSession_cons, if_pos hdone]
      constructor
      · intro _
        exact hstep.1 hdone
      · intro w hw
        simp only [RunResult.vTrace, List.mem_singleton] at hw
        rw [hw, hstep.1 hdone]
        exact sessionEnd_interp v0 dx0 dy0 dz0
    · have hdf : (traverse t e v dx0 dy0 dz0).done = false := by simpa using hdone
      have hinv := hstep.2 hdf
      have hrest := ih _ _ hinv
      rw [runSession_cons, if_neg hdone]
      constructor
      · intro hfin
        exact hrest.1 (by simpa using hfin)
      · intro w hw
        simp only [RunResult.vTrace, List.mem_cons] at hw
        rcases hw with hw | hw
        · rw [hw]
          exact valInv_interp v0 dx0 dy0 dz0 _ _ hinv
        · exact hrest.2 w hw

/-- The deltas line 285 computes for a pair of distinct vertex indices are
not all zero (every pair of distinct cube vertices differs on some axis). -/
theorem vdelta_nonzero : ∀ a b : Fin 8, a ≠ b →
    ¬(vdx a.val b.val = 0 ∧ vdy a.val b.val = 0 ∧ vdz a.val b.val = 0) := by decide

/-- Each materialized starting axis and its raw delta satisfy `AxisOK`. -/
theorem vdelta_axisOK : ∀ a b : Fin 8,
    AxisOK (materialize (vtx a.val)).x (vdx a.val b.val) ∧
    AxisOK (materialize (vtx a.val)).y (vdy a.val b.val) ∧
    AxisOK (materialize (vtx a.val)).z (vdz a.val b.val) := by decide

/-- Running the STEPS-step loop from the materialized source vertex with the
raw deltas of line 285 lands exactly on the materialized target vertex. -/
theorem materialize_endpoint : ∀ a b : Fin 8,
    sessionEnd (materialize (vtx a.val)) (vdx a.val b.val) (vdy a.val b.val)
      (vdz a.val b.val) = materialize (vtx b.val) := by decide

/-- C1: for any distinct vertex indices A and B, a session that starts with
the engine idle and the displayed coordinate at the materialized form of A,
driven with the deltas `loop()` computes at line 285, has the coordinate
exactly at the materialized form of B at the moment it reports completion. -/
theorem C1_session_reaches_target (A B : Nat) (hA : A < 8) (hB : B < 8) (hAB : A ≠ B)
    (e : Engine) (he : e.state = TState.S_INIT) (ts : List Nat)
    (hfin : (runSession ts e (materialize (vtx A)) (vdx A B) (vdy A B) (vdz A B)).fin
      = true) :
    (runSession ts e (materialize (vtx A)) (vdx A B) (vdy A B) (vdz A B)).v
      = materialize (vtx B) := by
  have hne := vdelta_nonzero ⟨A, hA⟩ ⟨B, hB⟩ (Fin.ne_of_val_ne hAB)
  have hok := vdelta_axisOK ⟨A, hA⟩ ⟨B, hB⟩
  have hend := materialize_endpoint ⟨A, hA⟩ ⟨B, hB⟩
  cases ts with
  | nil => simp [runSession_nil] at hfin
  | cons t ts =>
    rw [runSession_cons, traverse_start t e _ _ _ _ he hne] at hfin ⊢
    simp only [Bool.false_eq_true, if_false] at hfin ⊢
    have hinv : ValInv (materialize (vtx A)) (vdx A B) (vdy A B) (vdz A B)
        { e with idx := 0, dx := vdx A B, dy := vdy A B, dz := vdz A B,
                 state := TState.S_LOOP } (materialize (vtx A)) := by
      refine ⟨by simp, by simp, by simp, by simp, by simp, by simp,
        Or.inl ⟨Or.inl (by simp), by simp⟩⟩
    have hrun := val_run (materialize (vtx A)) (vdx A B) (vdy A B) (vdz A B)
      hok.1 hok.2.1 hok.2.2 ts _ _ hinv
    have := hrun.1 (by simpa using hfin)
    simpa [hend] using this

/-- C1 witness: the concrete session from vertex 0 to vertex 7, driven at one
invocation per second, completes with the coordinate at materialize(vertex 7)
= (255,255,255). -/
theorem C1_session_reaches_target_witness :
    (runSession tsRun eng0 (materialize (vtx 0)) (vdx 0 7) (vdy 0 7) (vdz 0 7)).v
      = materialize (vtx 7) :=
  C1_session_reaches_target 0 7 (by decide) (by decide) (by decide) eng0 rfl tsRun
    (by decide)

/-- Convexity predicate: `w` lies on the straight segment from `p` to `q`,
at rational parameter `k / STEPS` for some `k ≤ STEPS` shared by all three
axes. -/
def OnSeg (p q w : Coord) : Prop :=
  ∃ k : Nat, k ≤ STEPS ∧
    (STEPS : Int) * w.x = ((STEPS : Int) - (k : Int)) * p.x + (k : Int) * q.x ∧
    (STEPS : Int) * w.y = ((STEPS : Int) - (k : Int)) * p.y + (k : Int) * q.y ∧
    (STEPS : Int) * w.z = ((STEPS : Int) - (k : Int)) * p.z + (k : Int) * q.z

theorem onSeg_left (p q : Coord) : OnSeg p q p :=
  ⟨0, Nat.zero_le _, by push_cast; ring, by push_cast; ring, by push_cast; ring⟩

theorem interp_onSeg (p w : Coord) (dx0 dy0 dz0 : Int)
    (hw : Interp p dx0 dy0 dz0 w) :
    OnSeg p (sessionEnd p dx0 dy0 dz0) w := by
  obtain ⟨k, hk, hx, hy, hz⟩ := hw
  refine ⟨k, hk, ?_, ?_, ?_⟩ <;>
    simp only [sessionEnd, hx, hy, hz] <;> ring

/-- C9: during a session from vertex A to vertex B started with the
coordinate at the materialized form of A, the displayed coordinate after
every engine invocation (and at the start) lies on the straight segment
between the materialized forms of A and B, endpoints included. -/
theorem C9_segment_invariant (A B : Nat) (hA : A < 8) (hB : B < 8) (hAB : A ≠ B)
    (e : Engine) (he : e.state = TState.S_INIT) (ts : List Nat) :
    OnSeg (materialize (vtx A)) (materialize (vtx B)) (materialize (vtx A)) ∧
    ∀ w ∈ (runSession ts e (materialize (vtx A)) (vdx A B) (vdy A B) (vdz A B)).vTrace,
      OnSeg (materialize (vtx A)) (materialize (vtx B)) w := by
  have hne := vdelta_nonzero ⟨A, hA⟩ ⟨B, hB⟩ (Fin.ne_of_val_ne hAB)
  have hok := vdelta_axisOK ⟨A, hA⟩ ⟨B, hB⟩
  have hend := materialize_endpoint ⟨A, hA⟩ ⟨B, hB⟩
  refine ⟨onSeg_left _ _, ?_⟩
  cases ts with
  | nil =>
    intro w hw
    simp [runSession_nil] at hw
  | cons t ts =>
    rw [runSession_cons, traverse_start t e _ _ _ _ he hne]
    simp only [Bool.false_eq_true, if_false]
    intro w hw
    have hinv : ValInv (materialize (vtx A)) (vdx A B) (vdy A B) (vdz A B)
        { e with idx := 0, dx := vdx A B, dy := vdy A B, dz := vdz A B,
                 state := TState.S_LOOP } (materialize (vtx A)) :=
      ⟨by simp, by simp, by simp, by simp, by simp, by simp,
       Or.inl ⟨Or.inl (by simp), by simp⟩⟩
    have hrun := val_run (materialize (vtx A)) (vdx A B) (vdy A B) (vdz A B)
      hok.1 hok.2.1 hok.2.2 ts _ _ hinv
    simp only [RunResult.vTrace, List.mem_cons] at hw
    rcases hw with hw | hw
    · rw [hw]
      exact onSeg_left _ _
    · have := interp_onSeg (materialize (vtx A)) w (vdx A B) (vdy A B) (vdz A B)
        (hrun.2 w hw)
      rwa [hend] at this

/-- C9 witness: the segment predicate holds at the session start of the
concrete 0-to-7 session. -/
theorem C9_segment_invariant_witness :
    OnSeg (materialize (vtx 0)) (materialize (vtx 7)) (materialize (vtx 0)) :=
  (C9_segment_invariant 0 7 (by decide) (by decide) (by decide) eng0 rfl [0]).1

/-- C8: invoking `traverse` in the idle state with all three deltas zero
reports completion on that very invocation, pushes no writes, and leaves the
displayed coordinate and the engine statics unchanged. -/
theorem C8_zero_delta_noop (now : Nat) (e : Engine) (v : Coord)
    (he : e.state = TState.S_INIT) :
    traverse now e v 0 0 0 = ⟨e, v, [], true⟩ :=
  traverse_idle now e v he

/-- C8 witness: the idle engine at the freshly initialised coordinate. -/
theorem C8_zero_delta_noop_witness :
    traverse 0 eng0 (materialize (vtx 0)) 0 0 0 = ⟨eng0, materialize (vtx 0), [], true⟩ :=
  C8_zero_delta_noop 0 eng0 (materialize (vtx 0)) rfl

/-- C10: once the engine has reported completion (state back at S_INIT) and
before a new target vertex is set — so that `loop()` computes all-zero
deltas because the previous and the target vertex coincide — any number of
further invocations leaves the displayed coordinate (and the statics)
unchanged. -/
theorem C10_post_completion_idempotent (ts : List Nat) (e : Engine) (v : Coord)
    (he : e.state = TState.S_INIT) :
    runRaw ts e v 0 0 0 = (e, v) := by
  induction ts with
  | nil => rfl
  | cons t ts ih =>
    show runRaw ts (traverse t e v 0 0 0).eng (traverse t e v 0 0 0).v 0 0 0 = (e, v)
    rw [traverse_idle t e v he]
    exact ih

/-- C10 witness: three post-completion invocations at the initial
coordinate. -/
theorem C10_post_completion_idempotent_witness :
    runRaw [5, 10, 15] eng0 (materialize (vtx 0)) 0 0 0 = (eng0, materialize (vtx 0)) :=
  C10_post_completion_idempotent [5, 10, 15] eng0 (materialize (vtx 0)) rfl

/-- C2 counterexample: for the vertex pair (0, 7) the x delta passed to
`traverse` at line 285 equals 1, which is not an element of
{−(MAX−MIN), 0, +(MAX−MIN)} = {−245, 0, 245}: line 285 subtracts the raw
0/1 table entries, not their materialized forms. -/
theorem C2_counterexample :
    vdx 0 7 = 1 ∧
    ¬(vdx 0 7 = -(STEPS : Int) ∨ vdx 0 7 = 0 ∨ vdx 0 7 = (STEPS : Int)) := by
  decide

/-- C2 amended: every per-axis delta passed to the traversal engine is an
element of {−1, 0, +1}, and the per-axis displacement accumulated over the
full STEPS-step loop, STEPS·delta, is an element of
{−(MAX−MIN), 0, +(MAX−MIN)}. -/
theorem C2_amended_deltas : ∀ a b : Fin 8,
    (vdx a.val b.val = -1 ∨ vdx a.val b.val = 0 ∨ vdx a.val b.val = 1) ∧
    (vdy a.val b.val = -1 ∨ vdy a.val b.val = 0 ∨ vdy a.val b.val = 1) ∧
    (vdz a.val b.val = -1 ∨ vdz a.val b.val = 0 ∨ vdz a.val b.val = 1) ∧
    ((STEPS : Int) * vdx a.val b.val = -(STEPS : Int) ∨
      (STEPS : Int) * vdx a.val b.val = 0 ∨
      (STEPS : Int) * vdx a.val b.val = (STEPS : Int)) ∧
    ((STEPS : Int) * vdy a.val b.val = -(STEPS : Int) ∨
      (STEPS : Int) * vdy a.val b.val = 0 ∨
      (STEPS : Int) * vdy a.val b.val = (STEPS : Int)) ∧
    ((STEPS : Int) * vdz a.val b.val = -(STEPS : Int) ∨
      (STEPS : Int) * vdz a.val b.val = 0 ∨
      (STEPS : Int) * vdz a.val b.val = (STEPS : Int)) := by
  decide

/-- C4 counterexample: the concrete session from vertex 0 to vertex 7
completes, but the last write pushed to the outputs is (254,254,254), not
(255,255,255): each write happens before the per-step increment, so the
target value is never pushed during the session itself. -/
theorem C4_counterexample :
    (runSession tsRun eng0 (materialize (vtx 0)) (vdx 0 7) (vdy 0 7) (vdz 0 7)).fin
      = true ∧
    (runSession tsRun eng0 (materialize (vtx 0)) (vdx 0 7) (vdy 0 7) (vdz 0 7)).writes.getLast?
      = some ⟨254, 254, 254⟩ ∧
    (⟨254, 254, 254⟩ : Coord) ≠ ⟨255, 255, 255⟩ := by
  decide

/-- C4 amended: the session from vertex 0 to vertex 7 pushes exactly 245
writes, the k-th (k = 0..244) being (10+k, 10+k, 10+k) — so consecutive
writes increase by 1 on all three axes, the final write is (254,254,254) —
and at completion the displayed coordinate equals (255,255,255). -/
theorem C4_amended_run :
    (runSession tsRun eng0 (materialize (vtx 0)) (vdx 0 7) (vdy 0 7) (vdz 0 7)).fin
      = true ∧
    (runSession tsRun eng0 (materialize (vtx 0)) (vdx 0 7) (vdy 0 7) (vdz 0 7)).writes
      = (List.range 245).map (fun k => ⟨10 + (k : Int), 10 + (k : Int), 10 + (k : Int)⟩) ∧
    (runSession tsRun eng0 (materialize (vtx 0)) (vdx 0 7) (vdy 0 7) (vdz 0 7)).v
      = ⟨255, 255, 255⟩ := by
  decide

/-- C5: after 2×(path length) = 30 invocations of the fixed-path selection
step from cursor 0 the cursor has not wrapped — it stands at 30; the wrap
to 0 happens only on the 31st invocation. -/
theorem C5_wrap_off_by_one :
    (selectStep^[30] sel0).i = 2 * MAX_PATH_SIZE ∧
    (selectStep^[30] sel0).i ≠ 0 ∧
    (selectStep^[31] sel0).i = 0 := by
  decide

/-- C6: the 30th invocation of the selection step — the one on which the
post-increment nibble cursor reaches 2×MAX_PATH_SIZE = 30 — dereferences
path index 30 >> 1 = 15 = MAX_PATH_SIZE, one past the last valid index of
the 15-byte table. -/
theorem C6_out_of_bounds_read :
    selPathIndex (selectStep^[29] sel0) = MAX_PATH_SIZE ∧
    (selectStep^[29] sel0).i + 1 = 2 * MAX_PATH_SIZE := by
  decide

theorem mdAccumF_digits : ∀ fuel n r : Nat, n ≤ fuel → r < 65536 →
    mdAccumF fuel n r = (r + (Nat.digits 10 n).sum) % 65536 := by
  intro fuel
  induction fuel with
  | zero =>
    intro n r hn hr
    have h0 : n = 0 := Nat.le_zero.mp hn
    subst h0
    simp [mdAccumF]
    omega
  | succ fuel ih =>
    intro n r hn hr
    rcases n with _ | m
    · simp [mdAccumF]
      omega
    · have hle : (m + 1) / 10 ≤ fuel := by omega
      have hlt : (r + (m + 1) % 10) % 65536 < 65536 := Nat.mod_lt _ (by norm_num)
      have hrec : mdAccumF (fuel + 1) (m + 1) r
          = mdAccumF fuel ((m + 1) / 10) ((r + (m + 1) % 10) % 65536) := rfl
      rw [hrec, ih _ _ hle hlt,
        Nat.digits_def' (by norm_num : (1 : Nat) < 10) (Nat.succ_pos m), List.sum_cons]
      simp only [Nat.succ_eq_add_one]
      omega

/-- C7: for every `millis()` value in `uint32_t` range, `MD_Random` invoked
with `nMax = 8` returns the sum of the counter's decimal digits reduced
modulo 8, hence always an index in [0, 7]. -/
theorem C7_md_random_digit_sum (t : Nat) (h : t < 4294967296) :
    MD_Random t 8 = (Nat.digits 10 t).sum % 8 ∧ MD_Random t 8 < 8 := by
  have hu : u32 t = t := Nat.mod_eq_of_lt h
  have h1 : MD_Random t 8 = ((0 + (Nat.digits 10 t).sum) % 65536) % 8 := by
    rw [MD_Random, hu, mdAccumF_digits t t 0 le_rfl (by norm_num)]
  constructor
  · rw [h1]
    simp only [Nat.zero_add]
    exact Nat.mod_mod_of_dvd _ (by norm_num)
  · show mdAccumF (u32 t) (u32 t) 0 % 8 < 8
    exact Nat.mod_lt _ (by norm_num)

/-- C7 witness: at elapsed time 2023 ms the digit sum is 7 and the selector
returns 7 < 8. -/
theorem C7_md_random_digit_sum_witness :
    MD_Random 2023 8 = (Nat.digits 10 2023).sum % 8 ∧ MD_Random 2023 8 < 8 :=
  C7_md_random_digit_sum 2023 (by norm_num)

end MoodLamp
